import Mathlib

/-!
Verification of the data ingestion and reconciliation layer of the research
dashboard in `main.py` (filename normalization, fuzzy file discovery, schema
normalization, per-group loading and reconciliation into unified datasets).

Strings are modelled as lists of Unicode code points (`UStr`), since the
behaviour under study (NFC normalization, substring search, case folding)
is defined on code points.  External library primitives
(`unicodedata.normalize`, `str.lower`, `pandas`) are modelled on the
fragment of behaviour the code relies on, as documented at each definition.
-/

/-! ## Definitions: the embedded program -/

/-- A Unicode string: a list of code points. -/
abbrev UStr := List Nat

/-- Model of Python `str.lower` on a single code point.  ASCII uppercase
letters map to lowercase; `É` (U+00C9) maps to `é` (U+00E9); all other code
points in play (Hangul syllables and jamo, digits, punctuation) are caseless
and map to themselves, as in Python. -/
def lowerChar (c : Nat) : Nat :=
  if 0x41 ≤ c ∧ c ≤ 0x5A then c + 0x20
  else if c = 0xC9 then 0xE9
  else c

/-- Model of Python `str.lower`: code-point-wise lowering. -/
def lowerStr (s : UStr) : UStr := s.map lowerChar

/-- Canonical composition of a pair of code points, modelling the composition
step of Unicode NFC on a representative fragment: the Hangul LV pair
(U+1100, U+1161) composes to 가 (U+AC00), and (e, U+0301 combining acute)
composes to é (U+00E9).  All other pairs do not compose. -/
def composePair (a b : Nat) : Option Nat :=
  if a = 0x1100 ∧ b = 0x1161 then some 0xAC00
  else if a = 0x65 ∧ b = 0x301 then some 0xE9
  else none

/-- Model of `unicodedata.normalize('NFC', s)`: left-to-right canonical
composition of adjacent pairs per `composePair`. -/
def nfcNormalize : UStr → UStr
  | [] => []
  | [a] => [a]
  | a :: b :: rest =>
    match composePair a b with
    | some c => c :: nfcNormalize rest
    | none => a :: nfcNormalize (b :: rest)

/-- `normalize_str` from `main.py`: NFC-normalize a string (the Python code
returns falsy inputs unchanged; the empty string is a fixed point of NFC, so
this collapses to plain normalization). -/
def normalize_str (s : UStr) : UStr := nfcNormalize s

/-- `leadsWith pre s` holds when `pre` is an initial segment of `s`
(Python `s.startswith(pre)`). -/
def leadsWith : UStr → UStr → Bool
  | [], _ => true
  | _ :: _, [] => false
  | a :: as, b :: bs => a = b && leadsWith as bs

/-- `containsSub s sub` models Python `sub in s`: `sub` occurs as a
contiguous substring of `s`. -/
def containsSub : UStr → UStr → Bool
  | s, sub =>
    leadsWith sub s ||
      match s with
      | [] => false
      | _ :: t => containsSub t sub

/-- `endsWithL s suf` models Python `s.endswith(suf)`. -/
def endsWithL (s suf : UStr) : Bool := leadsWith suf.reverse s.reverse

/-- The loop body of `find_file_fuzzy`: scan the directory listing in order,
NFC-normalize each file name, and return the first file whose normalized name
contains the (already normalized) keyword and whose lowercased normalized name
ends with the (already normalized and lowercased) extension. -/
def findLoop (kw ext : UStr) : List UStr → Option UStr
  | [] => none
  | f :: fs =>
    let fName := normalize_str f
    if containsSub fName kw && endsWithL (lowerStr fName) ext then some f
    else findLoop kw ext fs

/-- `find_file_fuzzy` from `main.py`.  The directory is modelled as
`Option (List UStr)`: `none` when the directory does not exist, otherwise the
iteration-ordered listing of file names. -/
def find_file_fuzzy (directory : Option (List UStr)) (keyword ext : UStr) :
    Option UStr :=
  match directory with
  | none => none
  | some files => findLoop (normalize_str keyword) (lowerStr (normalize_str ext)) files

/-- The match condition of `find_file_fuzzy`, as a predicate on a single
candidate file name: the canonical (NFC) file name contains the canonical
keyword as a substring, and case-insensitively ends with the canonical
extension. -/
def fuzzyMatch (fileName keyword ext : UStr) : Bool :=
  containsSub (normalize_str fileName) (normalize_str keyword) &&
    endsWithL (lowerStr (normalize_str fileName)) (lowerStr (normalize_str ext))

/-- A cell value: a string, an exact number (the EC targets 1.0, 2.0, 4.0,
8.0 are exactly representable, so integers suffice), a coerced timestamp
(`none` models pandas `NaT` from `errors='coerce'`), or a missing value. -/
inductive Val where
  | str : UStr → Val
  | num : Int → Val
  | dt : Option Int → Val
  | na : Val
deriving DecidableEq

/-- A pandas DataFrame: an ordered list of column labels and a list of rows,
each row a list of cells positionally aligned with the labels. -/
structure DataFrame where
  cols : List UStr
  rows : List (List Val)
deriving DecidableEq

/-- Whitespace recognised by pandas `str.strip`: space, tab, LF, CR, VT, FF. -/
def isSpaceCh (c : Nat) : Bool :=
  c == 0x20 || c == 0x9 || c == 0xA || c == 0xD || c == 0xB || c == 0xC

/-- Model of `str.strip()`: remove leading and trailing whitespace. -/
def stripL (s : UStr) : UStr := (s.dropWhile isSpaceCh).rdropWhile isSpaceCh

/-- `str.replace(" ", "")`: remove every space (U+0020) character. -/
def removeSpaces (s : UStr) : UStr := s.filter (fun c => !(c == 0x20))

/-- Header normalization applied to environmental tables:
strip then lowercase each column label. -/
def normEnvCol (c : UStr) : UStr := lowerStr (stripL c)

/-- Canonical growth column `leaves`. -/
def colLeaves : UStr := [0x6C, 0x65, 0x61, 0x76, 0x65, 0x73]

/-- Canonical growth column `height_top`. -/
def colHeightTop : UStr := [0x68, 0x65, 0x69, 0x67, 0x68, 0x74, 0x5F, 0x74, 0x6F, 0x70]

/-- Canonical growth column `height_root`. -/
def colHeightRoot : UStr := [0x68, 0x65, 0x69, 0x67, 0x68, 0x74, 0x5F, 0x72, 0x6F, 0x6F, 0x74]

/-- Canonical growth column `biomass`. -/
def colBiomass : UStr := [0x62, 0x69, 0x6F, 0x6D, 0x61, 0x73, 0x73]

/-- Canonical growth column `id`. -/
def colId : UStr := [0x69, 0x64]

/-- The `rename_map` alias table from `load_data`, with the Korean header
variants spelled as code points: 잎수(장)/잎수 → leaves,
지상부길이(mm)/지상부길이 → height_top, 지하부길이(mm)/지하부길이 →
height_root, 생중량(g)/생중량 → biomass, 개체번호 → id. -/
def rename_map : List (UStr × UStr) :=
  [([0xC78E, 0xC218, 0x28, 0xC7A5, 0x29], colLeaves),
   ([0xC78E, 0xC218], colLeaves),
   ([0xC9C0, 0xC0C1, 0xBD80, 0xAE38, 0xC774, 0x28, 0x6D, 0x6D, 0x29], colHeightTop),
   ([0xC9C0, 0xC0C1, 0xBD80, 0xAE38, 0xC774], colHeightTop),
   ([0xC9C0, 0xD558, 0xBD80, 0xAE38, 0xC774, 0x28, 0x6D, 0x6D, 0x29], colHeightRoot),
   ([0xC9C0, 0xD558, 0xBD80, 0xAE38, 0xC774], colHeightRoot),
   ([0xC0DD, 0xC911, 0xB7C9, 0x28, 0x67, 0x29], colBiomass),
   ([0xC0DD, 0xC911, 0xB7C9], colBiomass),
   ([0xAC1C, 0xCCB4, 0xBC88, 0xD638], colId)]

/-- `df.rename(columns=m)` on a single label: replace it by its alias-table
image when the label is a key, otherwise leave it unchanged. -/
def applyRename : List (UStr × UStr) → UStr → UStr
  | [], c => c
  | (k, v) :: rest, c => if c = k then v else applyRename rest c

/-- Header normalization applied to growth tables: remove internal spaces,
strip, then rename via the alias table. -/
def normGrowthCol (c : UStr) : UStr := applyRename rename_map (stripL (removeSpaces c))

/-- The Schema Normalizer on environmental tables: renames columns only,
rows untouched. -/
def normEnvCols (df : DataFrame) : DataFrame :=
  { cols := df.cols.map normEnvCol, rows := df.rows }

/-- The Schema Normalizer on growth tables: renames columns only,
rows untouched. -/
def normGrowthCols (df : DataFrame) : DataFrame :=
  { cols := df.cols.map normGrowthCol, rows := df.rows }

/-- A Group: an experimental condition with an identifying name and a numeric
target parameter (EC).  The configured EC values 1.0, 2.0, 4.0, 8.0 are all
exactly representable, so they are carried as integers.  The display color
plays no role in the ingestion layer and is omitted. -/
structure School where
  name : UStr
  ec : Int
deriving DecidableEq

/-- 송도고, target EC 1.0. -/
def schoolSongdo : School := ⟨[0xC1A1, 0xB3C4, 0xACE0], 1⟩

/-- 하늘고, target EC 2.0. -/
def schoolHaneul : School := ⟨[0xD558, 0xB298, 0xACE0], 2⟩

/-- 아라고, target EC 4.0. -/
def schoolAra : School := ⟨[0xC544, 0xB77C, 0xACE0], 4⟩

/-- 동산고, target EC 8.0. -/
def schoolDongsan : School := ⟨[0xB3D9, 0xC0B0, 0xACE0], 8⟩

/-- `SCHOOL_CONFIG` in dict insertion order (the iteration order of both the
environmental loop and the sheet-matching loop). -/
def SCHOOL_CONFIG : List School := [schoolSongdo, schoolHaneul, schoolAra, schoolDongsan]

/-- Column `time`. -/
def colTime : UStr := [0x74, 0x69, 0x6D, 0x65]

/-- Column `temperature`. -/
def colTemperature : UStr := [0x74, 0x65, 0x6D, 0x70, 0x65, 0x72, 0x61, 0x74, 0x75, 0x72, 0x65]

/-- Column `humidity`. -/
def colHumidity : UStr := [0x68, 0x75, 0x6D, 0x69, 0x64, 0x69, 0x74, 0x79]

/-- Column `ph`. -/
def colPh : UStr := [0x70, 0x68]

/-- Column `ec`. -/
def colEc : UStr := [0x65, 0x63]

/-- Column `school`, the group-identity tag. -/
def colSchool : UStr := [0x73, 0x63, 0x68, 0x6F, 0x6F, 0x6C]

/-- Column `target_ec`, the target-parameter tag. -/
def colTargetEc : UStr := [0x74, 0x61, 0x72, 0x67, 0x65, 0x74, 0x5F, 0x65, 0x63]

/-- `required_cols` from `load_data`: the five fields every environmental
source must provide post-normalization. -/
def required_cols : List UStr := [colTime, colTemperature, colHumidity, colPh, colEc]

/-- Extension `.csv`. -/
def extCsv : UStr := [0x2E, 0x63, 0x73, 0x76]

/-- Extension `.xlsx`. -/
def extXlsx : UStr := [0x2E, 0x78, 0x6C, 0x73, 0x78]

/-- Primary growth-workbook keyword 생육결과. -/
def kwGrowth1 : UStr := [0xC0DD, 0xC721, 0xACB0, 0xACFC]

/-- Fallback growth-workbook keyword 4개교. -/
def kwGrowth2 : UStr := [0x34, 0xAC1C, 0xAD50]

/-- The prefix of warning messages: the warning emoji and a space. -/
def warnSign : UStr := [0x26A0, 0xFE0F, 0x20]

/-- The prefix of error messages: the cross-mark emoji and a space. -/
def crossSign : UStr := [0x274C, 0x20]

/-- Warning text for a CSV missing required columns (line 103):
`⚠️ {name} 파일에 필수 컬럼이 부족합니다.` — it interpolates only the file
name. -/
def envWarnMsg (p : UStr) : UStr :=
  warnSign ++ p ++
    [0x20, 0xD30C, 0xC77C, 0xC5D0, 0x20, 0xD544, 0xC218, 0x20, 0xCEEC, 0xB7FC,
     0xC774, 0x20, 0xBD80, 0xC871, 0xD569, 0xB2C8, 0xB2E4, 0x2E]

/-- Error text for a CSV that fails to parse (line 105):
`❌ {name} 로드 중 에러: {e}` (the trailing exception text is not modelled,
as the model's read failures carry no payload). -/
def envErrMsg (p : UStr) : UStr :=
  crossSign ++ p ++
    [0x20, 0xB85C, 0xB4DC, 0x20, 0xC911, 0x20, 0xC5D0, 0xB7EC, 0x3A, 0x20]

/-- Warning when no growth workbook is found (line 162):
`⚠️ 생육 결과 엑셀 파일을 찾을 수 없습니다.` -/
def growthFindWarnMsg : UStr :=
  [0x26A0, 0xFE0F, 0x20, 0xC0DD, 0xC721, 0x20, 0xACB0, 0xACFC, 0x20, 0xC5D1,
   0xC140, 0x20, 0xD30C, 0xC77C, 0xC744, 0x20, 0xCC3E, 0xC744, 0x20, 0xC218,
   0x20, 0xC5C6, 0xC2B5, 0xB2C8, 0xB2E4, 0x2E]

/-- Error when the growth branch raises (line 160):
`❌ 생육 데이터 로드 중 에러: {e}` (exception text not modelled). -/
def growthErrMsg : UStr :=
  [0x274C, 0x20, 0xC0DD, 0xC721, 0x20, 0xB370, 0xC774, 0xD130, 0x20, 0xB85C,
   0xB4DC, 0x20, 0xC911, 0x20, 0xC5D0, 0xB7EC, 0x3A, 0x20]

/-- First index of a column label among the labels, if present. -/
def firstIdx (c : UStr) : List UStr → Option Nat
  | [] => none
  | x :: xs => if x = c then some 0 else (firstIdx c xs).map (· + 1)

/-- Read the cell of a row under a column label (`df['c']` on one row):
the value at the first position carrying that label. -/
def lookupCell (cols : List UStr) (row : List Val) (c : UStr) : Option Val :=
  match firstIdx c cols with
  | some i => row[i]?
  | none => none

/-- Pointwise update of a row: apply `f` to the cells at every position whose
label is `c`, walking labels and cells in parallel. -/
def mapAtCol (c : UStr) (f : Val → Val) : List UStr → List Val → List Val
  | _, [] => []
  | [], r => r
  | l :: ls, x :: xs => (if l = c then f x else x) :: mapAtCol c f ls xs

/-- `df[c] = v` (column assignment of a scalar): overwrite the column when
the label exists, otherwise append a new column of `v` at the end. -/
def setCol (df : DataFrame) (c : UStr) (v : Val) : DataFrame :=
  if df.cols.contains c then
    { cols := df.cols, rows := df.rows.map (mapAtCol c (fun _ => v) df.cols) }
  else
    { cols := df.cols ++ [c], rows := df.rows.map (fun r => r ++ [v]) }

/-- `df[c] = g(df[c])` (column transformation), used for the timestamp
coercion. -/
def coerceCol (df : DataFrame) (c : UStr) (f : Val → Val) : DataFrame :=
  { cols := df.cols, rows := df.rows.map (mapAtCol c f df.cols) }

/-- Model of `pd.to_datetime(·, errors='coerce')` on one cell: temporal
values pass through, exact numbers parse to timestamps, and every other
value (including unparsable text and missing values) coerces to the missing
marker `NaT` — never an exception.  Which concrete date strings parse is
external library behaviour the claims do not depend on. -/
def toDatetimeVal : Val → Val
  | Val.dt t => Val.dt t
  | Val.num n => Val.dt (some n)
  | _ => Val.dt none

/-- Append a column label to a union accumulator unless already present. -/
def dedupInsert (acc : List UStr) (c : UStr) : List UStr :=
  if acc.contains c then acc else acc ++ [c]

/-- Column union across frames in order of first appearance (the column
index `pd.concat` produces). -/
def unionCols (ls : List (List UStr)) : List UStr :=
  ls.foldl (fun acc l => l.foldl dedupInsert acc) []

/-- Reindex one row onto the union columns: a label absent from the source
frame yields a missing value. -/
def reindexRow (srcCols : List UStr) (row : List Val) (allCols : List UStr) : List Val :=
  allCols.map (fun c => (lookupCell srcCols row c).getD Val.na)

/-- `pd.concat(dfs, ignore_index=True)`: columns are unioned in order of
first appearance and every source row is kept, reindexed onto the union. -/
def concatFrames (dfs : List DataFrame) : DataFrame :=
  let all := unionCols (dfs.map DataFrame.cols)
  { cols := all,
    rows := (dfs.map (fun d => d.rows.map (fun r => reindexRow d.cols r all))).flatten }

/-- `pd.DataFrame()`: the explicitly-empty frame, with no columns and no
rows. -/
def emptyDF : DataFrame := ⟨[], []⟩

/-- `df.empty` in pandas: true when either axis has length zero. -/
def DataFrame.pdEmpty (df : DataFrame) : Bool := df.rows.isEmpty || df.cols.isEmpty

/-- Assoc-list lookup keyed by file name. -/
def lookupA {α : Type} : List (UStr × α) → UStr → Option α
  | [], _ => none
  | (k, v) :: rest, key => if key = k then some v else lookupA rest key

/-- The observable filesystem: the `data` directory listing (`none` when the
directory does not exist), the parse outcome of each CSV (`none` models
`pd.read_csv` raising), and the parse outcome of each workbook — itself a
sheet list whose entries are `none` when processing that sheet raises (e.g.
the `.str` header accessor on non-string headers). -/
structure FS where
  listing : Option (List UStr)
  csvFiles : List (UStr × Option DataFrame)
  xlsxFiles : List (UStr × Option (List (UStr × Option DataFrame)))
deriving DecidableEq

/-- Outcome of `pd.read_csv` on a path. -/
def readCsv (fs : FS) (p : UStr) : Option DataFrame :=
  match lookupA fs.csvFiles p with
  | some r => r
  | none => none

/-- Outcome of `pd.read_excel(p, sheet_name=None)` on a path. -/
def readXlsx (fs : FS) (p : UStr) : Option (List (UStr × Option DataFrame)) :=
  match lookupA fs.xlsxFiles p with
  | some r => r
  | none => none

/-- The per-group environmental step of `load_data` (lines 85-108): locate
the group's CSV by fuzzy match on its name; on success parse it, normalize
headers, require `required_cols`, tag with group identity and target EC, and
coerce the timestamp column.  Returns the group's contribution (if any)
together with the warning and error messages it emits. -/
def envStep (fs : FS) (s : School) : Option DataFrame × List UStr × List UStr :=
  match find_file_fuzzy fs.listing s.name extCsv with
  | none => (none, [], [])
  | some p =>
    match readCsv fs p with
    | none => (none, [], [envErrMsg p])
    | some df0 =>
      let df1 := normEnvCols df0
      if required_cols.all (fun c => df1.cols.contains c) then
        let df2 := setCol df1 colSchool (Val.str s.name)
        let df3 := setCol df2 colTargetEc (Val.num s.ec)
        let df4 := coerceCol df3 colTime toDatetimeVal
        (some df4, [], [])
      else (none, [envWarnMsg p], [])

/-- The environmental half of `load_data`: run `envStep` over the groups in
configuration order and concatenate the contributions; with no contribution
the result is the explicitly-empty frame (line 110). -/
def envPhase (fs : FS) : DataFrame × List UStr × List UStr :=
  let steps := SCHOOL_CONFIG.map (envStep fs)
  let dfs := steps.filterMap (fun t => t.1)
  ((if dfs.isEmpty then emptyDF else concatFrames dfs),
   (steps.map (fun t => t.2.1)).flatten,
   (steps.map (fun t => t.2.2)).flatten)

/-- The sheet-name matching loop (lines 130-134): the first configured
school whose name occurs in the normalized sheet name. -/
def loopMatch : UStr → List School → Option School
  | _, [] => none
  | n, s :: rest => if containsSub n s.name then some s else loopMatch n rest

/-- Tag one matched growth sheet (lines 138-153): normalize headers, then
set the group-identity and target-EC columns. -/
def tagGrowth (s : School) (df : DataFrame) : DataFrame :=
  setCol (setCol (normGrowthCols df) colSchool (Val.str s.name)) colTargetEc (Val.num s.ec)

/-- The per-sheet loop of the growth branch (lines 126-154).  A sheet whose
name matches no school is skipped before its table is touched; a raise while
processing a matched sheet (a `none` table) escapes the loop, so the whole
traversal yields `none` — the enclosing handler then leaves the growth
dataset empty, discarding every sheet's contribution. -/
def processSheets : List (UStr × Option DataFrame) → Option (List DataFrame)
  | [] => some []
  | (n, d) :: rest =>
    match loopMatch (normalize_str n) SCHOOL_CONFIG with
    | none => processSheets rest
    | some s =>
      match d with
      | none => none
      | some df => (processSheets rest).map (fun dfs => tagGrowth s df :: dfs)

/-- The growth half of `load_data` (lines 112-162): locate the workbook
under the primary then the fallback keyword; a missing workbook warns, a
raise while reading or processing leaves the dataset empty with an error,
and otherwise the matched sheets' tagged tables are concatenated (empty
when no sheet matched, line 156). -/
def growthPhase (fs : FS) : DataFrame × List UStr × List UStr :=
  match (find_file_fuzzy fs.listing kwGrowth1 extXlsx).orElse
      (fun _ => find_file_fuzzy fs.listing kwGrowth2 extXlsx) with
  | none => (emptyDF, [growthFindWarnMsg], [])
  | some p =>
    match readXlsx fs p with
    | none => (emptyDF, [], [growthErrMsg])
    | some sheets =>
      match processSheets sheets with
      | none => (emptyDF, [], [growthErrMsg])
      | some dfs => ((if dfs.isEmpty then emptyDF else concatFrames dfs), [], [])

/-- The result of `load_data`: the two unified datasets plus the warning and
error messages emitted along the way. -/
structure LoadResult where
  env : DataFrame
  growth : DataFrame
  warnings : List UStr
  errors : List UStr
deriving DecidableEq

/-- `load_data` (lines 74-164): `none` models the early return on a missing
`data` directory; otherwise both halves run to completion. -/
def load_data (fs : FS) : Option LoadResult :=
  match fs.listing with
  | none => none
  | some _ =>
    let e := envPhase fs
    let g := growthPhase fs
    some ⟨e.1, g.1, e.2.1 ++ g.2.1, e.2.2 ++ g.2.2⟩

/-- The terminal check of `main` (lines 177-179): the load is reported as an
overall failure exactly when the directory was missing or both unified
datasets are empty. -/
def loadFails (fs : FS) : Bool :=
  match load_data fs with
  | none => true
  | some r => r.env.pdEmpty && r.growth.pdEmpty

/-- A well-formed (rectangular) frame: every row has exactly one cell per
column label, as pandas guarantees for parsed tables. -/
def DataFrame.alignedB (df : DataFrame) : Bool :=
  df.rows.all (fun r => r.length == df.cols.length)

/-- Well-formedness of the filesystem model: every successfully parsed CSV
table and every successfully materialized workbook sheet is rectangular. -/
def FS.wfB (fs : FS) : Bool :=
  fs.csvFiles.all (fun kv =>
    match kv.2 with
    | some df => df.alignedB
    | none => true) &&
  fs.xlsxFiles.all (fun kv =>
    match kv.2 with
    | some sheets =>
      sheets.all (fun sd =>
        match sd.2 with
        | some df => df.alignedB
        | none => true)
    | none => true)

/-- The list of per-group environmental contributions, in group order. -/
def envDfs (fs : FS) : List DataFrame :=
  (SCHOOL_CONFIG.map (envStep fs)).filterMap (fun t => t.1)

/-- The canonical environmental column set per the spec: the five required
fields plus the two derived tags.  (Spec-side definition, used to compare
the spec's claim with the code's behaviour.) -/
def canonicalEnvColumns : List UStr := required_cols ++ [colSchool, colTargetEc]

/-- A data directory that exists but holds no files at all. -/
def fsNoFiles : FS := ⟨some [], [], []⟩

/-- A workbook whose only sheet matches no school. -/
def fsUnmatchedSheet : FS :=
  ⟨some [[0xC0DD, 0xC721, 0xACB0, 0xACFC, 0x2E, 0x78, 0x6C, 0x73, 0x78]], [],
   [([0xC0DD, 0xC721, 0xACB0, 0xACFC, 0x2E, 0x78, 0x6C, 0x73, 0x78],
     some [([0x61], some ⟨[colId], [[Val.num 1]]⟩)])]⟩

/-- The file name 송도고.csv. -/
def nameSongdoCsv : UStr := [0xC1A1, 0xB3C4, 0xACE0, 0x2E, 0x63, 0x73, 0x76]

/-- An environmental table lacking the `humidity` column. -/
def dfNoHumidity : DataFrame :=
  ⟨[colTime, colTemperature, colPh, colEc],
   [[Val.num 0, Val.num 25, Val.num 7, Val.num 1]]⟩

/-- A directory holding only 송도고.csv, whose table lacks `humidity`. -/
def fsMissingHumidity : FS :=
  ⟨some [nameSongdoCsv], [(nameSongdoCsv, some dfNoHumidity)], []⟩

/-- The file name 생육결과.xlsx. -/
def nameGrowthXlsx : UStr :=
  [0xC0DD, 0xC721, 0xACB0, 0xACFC, 0x2E, 0x78, 0x6C, 0x73, 0x78]

/-- A complete environmental table for 송도고 with one reading. -/
def dfEnvW : DataFrame :=
  ⟨[colTime, colTemperature, colHumidity, colPh, colEc],
   [[Val.num 0, Val.num 25, Val.num 60, Val.num 7, Val.num 1]]⟩

/-- A growth sheet table with one specimen. -/
def dfGrowthW : DataFrame := ⟨[[0xAC1C, 0xCCB4, 0xBC88, 0xD638]], [[Val.num 1]]⟩

/-- A directory with one valid environmental file and one growth workbook
whose single sheet is named 송도고. -/
def fsTagged : FS :=
  ⟨some [nameSongdoCsv, nameGrowthXlsx],
   [(nameSongdoCsv, some dfEnvW)],
   [(nameGrowthXlsx, some [([0xC1A1, 0xB3C4, 0xACE0], some dfGrowthW)])]⟩

/-- A growth sheet table with one row and the specimen-id column. -/
def dfOneGrowthRow : DataFrame := ⟨[colId], [[Val.num 1]]⟩

/-- A workbook whose first sheet (송도고) is fine and whose second sheet
(하늘고) raises during processing. -/
def fsSheetError : FS :=
  ⟨some [nameGrowthXlsx], [],
   [(nameGrowthXlsx,
     some [([0xC1A1, 0xB3C4, 0xACE0], some dfOneGrowthRow),
           ([0xD558, 0xB298, 0xACE0], none)])]⟩

/-- The same workbook with only the fine 송도고 sheet. -/
def fsSheetOk : FS :=
  ⟨some [nameGrowthXlsx], [],
   [(nameGrowthXlsx, some [([0xC1A1, 0xB3C4, 0xACE0], some dfOneGrowthRow)])]⟩

/-- A directory with environmental data for one group and no growth
workbook. -/
def fsEnvOnly : FS := ⟨some [nameSongdoCsv], [(nameSongdoCsv, some dfEnvW)], []⟩

/-! ## Theorems -/

theorem findLoop_eq_find? (kw ext : UStr) (files : List UStr) :
    findLoop (normalize_str kw) (lowerStr (normalize_str ext)) files =
      files.find? (fun f => fuzzyMatch f kw ext) := by
  induction files with
  | nil => rfl
  | cons f fs ih =>
    have hpred :
        (containsSub (normalize_str f) (normalize_str kw) &&
          endsWithL (lowerStr (normalize_str f)) (lowerStr (normalize_str ext))) =
          fuzzyMatch f kw ext := rfl
    simp only [findLoop, List.find?, hpred]
    cases hf : fuzzyMatch f kw ext
    · simp [hf, ih]
    · simp [hf]

/-- C2: `find_file_fuzzy` returns `none` ("not found") on a missing
directory, and otherwise returns the first file in directory iteration order
satisfying the match condition (NFC-canonical substring containment of the
keyword, and case-insensitive extension suffix match); when no file
satisfies both conditions the result is `none`. -/
theorem find_file_fuzzy_spec (keyword ext : UStr) :
    find_file_fuzzy none keyword ext = none ∧
    ∀ files : List UStr,
      find_file_fuzzy (some files) keyword ext =
        files.find? (fun f => fuzzyMatch f keyword ext) := by
  refine ⟨rfl, fun files => ?_⟩
  simpa [find_file_fuzzy] using findLoop_eq_find? keyword ext files

/-- C3: the match result of the Filename Normalizer is invariant under the
Unicode composition form of both the file name and the keyword: any two
canonically equivalent file names (same NFC form) and any two canonically
equivalent keywords yield the same match result for every extension. -/
theorem fuzzyMatch_composition_invariant
    (f₁ f₂ k₁ k₂ ext : UStr)
    (hf : nfcNormalize f₁ = nfcNormalize f₂)
    (hk : nfcNormalize k₁ = nfcNormalize k₂) :
    fuzzyMatch f₁ k₁ ext = fuzzyMatch f₂ k₂ ext := by
  simp [fuzzyMatch, normalize_str, hf, hk]

/-- Witness for C3 at a concrete input: the file name 가.csv in composed form
(U+AC00) versus fully decomposed form (U+1100 U+1161), with the keyword 가
given in decomposed form, produce the same match result, and that result is a
successful match. -/
theorem fuzzyMatch_composition_invariant_witness :
    fuzzyMatch [0xAC00, 0x2E, 0x63, 0x73, 0x76] [0x1100, 0x1161]
        [0x2E, 0x63, 0x73, 0x76] =
      fuzzyMatch [0x1100, 0x1161, 0x2E, 0x63, 0x73, 0x76] [0x1100, 0x1161]
        [0x2E, 0x63, 0x73, 0x76] ∧
    fuzzyMatch [0xAC00, 0x2E, 0x63, 0x73, 0x76] [0x1100, 0x1161]
        [0x2E, 0x63, 0x73, 0x76] = true :=
  ⟨fuzzyMatch_composition_invariant _ _ _ _ _ (by decide) (by decide),
   by decide⟩

theorem isSpaceCh_lowerChar (c : Nat) : isSpaceCh (lowerChar c) = isSpaceCh c := by
  unfold lowerChar
  by_cases h1 : 0x41 ≤ c ∧ c ≤ 0x5A
  · rw [if_pos h1]
    have e1 : isSpaceCh (c + 0x20) = false := by
      simp only [isSpaceCh, Bool.or_eq_false_iff, beq_eq_false_iff_ne, ne_eq]
      omega
    have e2 : isSpaceCh c = false := by
      simp only [isSpaceCh, Bool.or_eq_false_iff, beq_eq_false_iff_ne, ne_eq]
      omega
    rw [e1, e2]
  · rw [if_neg h1]
    by_cases h2 : c = 0xC9
    · subst h2; decide
    · rw [if_neg h2]

theorem lowerChar_idem (c : Nat) : lowerChar (lowerChar c) = lowerChar c := by
  by_cases h1 : 0x41 ≤ c ∧ c ≤ 0x5A
  · have e : lowerChar c = c + 0x20 := by unfold lowerChar; rw [if_pos h1]
    rw [e]
    unfold lowerChar
    rw [if_neg (by omega), if_neg (by omega)]
  · by_cases h2 : c = 0xC9
    · subst h2; decide
    · have e : lowerChar c = c := by unfold lowerChar; rw [if_neg h1, if_neg h2]
      rw [e, e]

theorem lowerStr_idem (s : UStr) : lowerStr (lowerStr s) = lowerStr s := by
  unfold lowerStr
  rw [List.map_map]
  exact List.map_congr_left fun a _ => lowerChar_idem a

theorem isSpaceCh_comp_lowerChar : (isSpaceCh ∘ lowerChar) = isSpaceCh :=
  funext isSpaceCh_lowerChar

theorem dropWhile_lowerStr (s : UStr) :
    (lowerStr s).dropWhile isSpaceCh = lowerStr (s.dropWhile isSpaceCh) := by
  unfold lowerStr
  rw [List.dropWhile_map, isSpaceCh_comp_lowerChar]

theorem rdropWhile_lowerStr (s : UStr) :
    (lowerStr s).rdropWhile isSpaceCh = lowerStr (s.rdropWhile isSpaceCh) := by
  unfold List.rdropWhile
  have h : (lowerStr s).reverse = lowerStr s.reverse := by
    unfold lowerStr; rw [List.map_reverse]
  rw [h, dropWhile_lowerStr]
  unfold lowerStr
  rw [List.map_reverse]

theorem stripL_lowerStr (s : UStr) : stripL (lowerStr s) = lowerStr (stripL s) := by
  unfold stripL
  rw [dropWhile_lowerStr, rdropWhile_lowerStr]

theorem dropWhile_cons_false {p : Nat → Bool} {l tl : List Nat} {a : Nat}
    (h : List.dropWhile p l = a :: tl) : p a = false := by
  induction l with
  | nil => simp at h
  | cons x xs ih =>
    rw [List.dropWhile_cons] at h
    by_cases hx : p x
    · exact ih (by simpa [hx] using h)
    · rw [if_neg hx] at h
      cases h
      simpa using hx

theorem stripStart_stripL (s : UStr) :
    List.dropWhile isSpaceCh (stripL s) = stripL s := by
  unfold stripL
  rw [List.dropWhile_eq_self_iff]
  obtain ⟨r, hr⟩ := List.rdropWhile_prefix isSpaceCh (s.dropWhile isSpaceCh)
  revert hr
  generalize List.rdropWhile isSpaceCh (List.dropWhile isSpaceCh s) = t
  intro hr hl
  cases t with
  | nil => simp at hl
  | cons a ts =>
    have hr' : List.dropWhile isSpaceCh s = a :: (ts ++ r) := by rw [← hr]; rfl
    have ha := dropWhile_cons_false hr'
    simpa using ha

theorem stripL_idem (s : UStr) : stripL (stripL s) = stripL s := by
  show List.rdropWhile isSpaceCh (List.dropWhile isSpaceCh (stripL s)) = stripL s
  rw [stripStart_stripL]
  unfold stripL
  exact List.rdropWhile_idempotent _ _

theorem removeSpaces_no_space (s : UStr) : ∀ a ∈ removeSpaces s, a ≠ 0x20 := by
  intro a ha
  unfold removeSpaces at ha
  have := List.mem_filter.mp ha
  simpa using this.2

theorem removeSpaces_eq_self (s : UStr) (h : ∀ a ∈ s, a ≠ 0x20) :
    removeSpaces s = s := by
  unfold removeSpaces
  rw [List.filter_eq_self]
  intro a ha
  simpa using h a ha

theorem stripL_subset (s : UStr) : ∀ a ∈ stripL s, a ∈ s := by
  intro a ha
  unfold stripL at ha
  have h1 := ( List.rdropWhile_prefix isSpaceCh (s.dropWhile isSpaceCh)).subset ha
  exact (List.dropWhile_suffix isSpaceCh).subset h1

theorem applyRename_cases_gen (m : List (UStr × UStr)) (c : UStr) :
    applyRename m c = c ∨ applyRename m c ∈ m.map Prod.snd := by
  induction m with
  | nil => left; rfl
  | cons kv rest ih =>
    obtain ⟨k, v⟩ := kv
    by_cases h : c = k
    · right
      simp [applyRename, h]
    · rcases ih with h1 | h1
      · left
        simpa [applyRename, h] using h1
      · right
        simp only [List.map_cons, List.mem_cons]
        right
        simpa [applyRename, h] using h1

theorem normGrowthCol_idem (c : UStr) : normGrowthCol (normGrowthCol c) = normGrowthCol c := by
  unfold normGrowthCol
  have hdns : ∀ a ∈ stripL (removeSpaces c), a ≠ 0x20 := fun a ha =>
    removeSpaces_no_space _ a (stripL_subset _ a ha)
  have hdstrip : stripL (stripL (removeSpaces c)) = stripL (removeSpaces c) :=
    stripL_idem _
  rcases applyRename_cases_gen rename_map (stripL (removeSpaces c)) with h | h
  · rw [h, removeSpaces_eq_self _ hdns, hdstrip, h]
  · set x := applyRename rename_map (stripL (removeSpaces c)) with hx
    simp only [rename_map, List.map_cons, List.map_nil, List.mem_cons,
      List.not_mem_nil, or_false] at h
    rcases h with h | h | h | h | h | h | h | h | h <;> rw [h] <;> decide

theorem normEnvCol_idem (c : UStr) : normEnvCol (normEnvCol c) = normEnvCol c := by
  unfold normEnvCol
  rw [stripL_lowerStr, stripL_idem, lowerStr_idem]

/-- C5: the Schema Normalizer is idempotent, for both dataset kinds: applying
the environmental header normalization (strip + lowercase), or the growth
header normalization (internal-space removal + strip + alias renaming), to an
already-normalized table yields an identical table (columns and rows). -/
theorem schema_normalizer_idempotent (df : DataFrame) :
    normEnvCols (normEnvCols df) = normEnvCols df ∧
    normGrowthCols (normGrowthCols df) = normGrowthCols df := by
  constructor
  · simp only [normEnvCols, List.map_map, DataFrame.mk.injEq, and_true]
    exact List.map_congr_left fun a _ => normEnvCol_idem a
  · simp only [normGrowthCols, List.map_map, DataFrame.mk.injEq, and_true]
    exact List.map_congr_left fun a _ => normGrowthCol_idem a

/-- C10: in `find_file_fuzzy` only the extension comparison is
case-insensitive.  Concretely: a directory holding the single file
`abc.csv` yields no match for the keyword `ABC` even though the
lowercased name contains the lowercased keyword, while the same file is
found under the extension `.CSV` (extension case is ignored). -/
theorem keyword_case_sensitive_extension_case_insensitive :
    find_file_fuzzy (some [[0x61, 0x62, 0x63, 0x2E, 0x63, 0x73, 0x76]])
        [0x41, 0x42, 0x43] [0x2E, 0x63, 0x73, 0x76] = none ∧
    containsSub (lowerStr [0x61, 0x62, 0x63, 0x2E, 0x63, 0x73, 0x76])
        (lowerStr [0x41, 0x42, 0x43]) = true ∧
    find_file_fuzzy (some [[0x61, 0x62, 0x63, 0x2E, 0x63, 0x73, 0x76]])
        [0x61, 0x62, 0x63] [0x2E, 0x43, 0x53, 0x56] =
      some [0x61, 0x62, 0x63, 0x2E, 0x63, 0x73, 0x76] := by
  refine ⟨by decide, by decide, by decide⟩

theorem firstIdx_getElem {c : UStr} : ∀ {ls : List UStr} {i : Nat},
    firstIdx c ls = some i → ls[i]? = some c := by
  intro ls
  induction ls with
  | nil => intro i h; simp [firstIdx] at h
  | cons x xs ih =>
    intro i h
    unfold firstIdx at h
    by_cases hx : x = c
    · rw [if_pos hx] at h
      cases h
      simpa using hx
    · rw [if_neg hx] at h
      cases hmap : firstIdx c xs with
      | none => rw [hmap] at h; simp at h
      | some j =>
        rw [hmap] at h
        simp only [Option.map] at h
        cases h
        simpa using ih hmap

theorem firstIdx_isSome_of_mem {c : UStr} : ∀ {ls : List UStr},
    c ∈ ls → (firstIdx c ls).isSome = true := by
  intro ls
  induction ls with
  | nil => intro h; simp at h
  | cons x xs ih =>
    intro h
    unfold firstIdx
    by_cases hx : x = c
    · rw [if_pos hx]; rfl
    · rw [if_neg hx]
      rcases List.mem_cons.mp h with h1 | h1
      · exact absurd h1.symm hx
      · cases hmap : firstIdx c xs with
        | none => have := ih h1; rw [hmap] at this; simp at this
        | some j => simp

theorem firstIdx_none_of_not_mem {c : UStr} : ∀ {ls : List UStr},
    c ∉ ls → firstIdx c ls = none := by
  intro ls
  induction ls with
  | nil => intro _; rfl
  | cons x xs ih =>
    intro h
    unfold firstIdx
    rw [if_neg (by intro he; exact h (by simp [he]))]
    rw [ih (by intro hm; exact h (by simp [hm]))]
    rfl

theorem firstIdx_append_some {c : UStr} {ls : List UStr} {i : Nat}
    (h : firstIdx c ls = some i) (ms : List UStr) :
    firstIdx c (ls ++ ms) = some i := by
  induction ls generalizing i with
  | nil => simp [firstIdx] at h
  | cons x xs ih =>
    simp only [firstIdx, List.cons_append, List.append_eq] at h ⊢
    by_cases hx : x = c
    · rw [if_pos hx] at h ⊢; exact h
    · rw [if_neg hx] at h ⊢
      cases hmap : firstIdx c xs with
      | none => rw [hmap] at h; simp at h
      | some j =>
        rw [hmap] at h
        simp only [Option.map] at h
        rw [ih hmap]
        simpa using h

theorem firstIdx_append_singleton_self {c : UStr} {ls : List UStr}
    (h : c ∉ ls) : firstIdx c (ls ++ [c]) = some ls.length := by
  induction ls with
  | nil => simp [firstIdx]
  | cons x xs ih =>
    simp only [firstIdx, List.cons_append, List.append_eq]
    rw [if_neg (by intro he; exact h (by simp [he]))]
    rw [ih (by intro hm; exact h (by simp [hm]))]
    simp

theorem lookupCell_of_firstIdx {cols : List UStr} {row : List Val} {c : UStr}
    {i : Nat} (h : firstIdx c cols = some i) :
    lookupCell cols row c = row[i]? := by
  unfold lookupCell
  rw [h]

theorem mapAtCol_length (c : UStr) (f : Val → Val) :
    ∀ (ls : List UStr) (xs : List Val), (mapAtCol c f ls xs).length = xs.length
  | ls, [] => by cases ls <;> rfl
  | [], _ :: _ => rfl
  | l :: ls, x :: xs => by
    simp only [mapAtCol, List.length_cons, mapAtCol_length c f ls xs]

theorem mapAtCol_getElem (c : UStr) (f : Val → Val) :
    ∀ (ls : List UStr) (xs : List Val) (i : Nat),
    (mapAtCol c f ls xs)[i]? =
      if ls[i]? = some c then xs[i]?.map f else xs[i]?
  | ls, [], i => by
    cases ls with
    | nil => simp [mapAtCol]
    | cons l ls2 => simp [mapAtCol]
  | [], x :: xs, i => by
    simp [mapAtCol]
  | l :: ls, x :: xs, 0 => by
    simp only [mapAtCol, List.getElem?_cons_zero, Option.map_some]
    by_cases hl : l = c
    · simp [hl]
    · have : ¬ (some l = some c) := by simpa using hl
      simp [hl, this]
  | l :: ls, x :: xs, i + 1 => by
    simp only [mapAtCol, List.getElem?_cons_succ]
    exact mapAtCol_getElem c f ls xs i

theorem alignedB_mem {df : DataFrame} (h : df.alignedB = true) {row : List Val}
    (hrow : row ∈ df.rows) : row.length = df.cols.length := by
  unfold DataFrame.alignedB at h
  have := (List.all_eq_true.mp h) row hrow
  simpa using this

theorem setCol_alignedB {df : DataFrame} (c : UStr) (v : Val)
    (h : df.alignedB = true) : (setCol df c v).alignedB = true := by
  unfold setCol
  split_ifs with hc
  · unfold DataFrame.alignedB
    rw [List.all_eq_true]
    intro r hr
    simp only [List.mem_map] at hr
    obtain ⟨r0, hr0, rfl⟩ := hr
    simp [mapAtCol_length, alignedB_mem h hr0]
  · unfold DataFrame.alignedB
    rw [List.all_eq_true]
    intro r hr
    simp only [List.mem_map] at hr
    obtain ⟨r0, hr0, rfl⟩ := hr
    simp [alignedB_mem h hr0]

theorem coerceCol_alignedB {df : DataFrame} (c : UStr) (f : Val → Val)
    (h : df.alignedB = true) : (coerceCol df c f).alignedB = true := by
  unfold coerceCol DataFrame.alignedB
  rw [List.all_eq_true]
  intro r hr
  simp only [List.mem_map] at hr
  obtain ⟨r0, hr0, rfl⟩ := hr
  simp [mapAtCol_length, alignedB_mem h hr0]

theorem normEnvCols_alignedB {df : DataFrame} (h : df.alignedB = true) :
    (normEnvCols df).alignedB = true := by
  unfold DataFrame.alignedB at h ⊢
  unfold normEnvCols
  simpa using h

theorem normGrowthCols_alignedB {df : DataFrame} (h : df.alignedB = true) :
    (normGrowthCols df).alignedB = true := by
  unfold DataFrame.alignedB at h ⊢
  unfold normGrowthCols
  simpa using h

theorem setCol_lookup_self {df : DataFrame} (c : UStr) (v : Val)
    (h : df.alignedB = true) :
    ∀ row2 ∈ (setCol df c v).rows, lookupCell (setCol df c v).cols row2 c = some v := by
  intro row2 hrow2
  by_cases hc : df.cols.contains c
  · simp only [setCol, if_pos hc, List.mem_map] at hrow2
    obtain ⟨row, hrow, rfl⟩ := hrow2
    simp only [setCol, if_pos hc]
    have hmem : c ∈ df.cols := by simpa using hc
    obtain ⟨i, hi⟩ := Option.isSome_iff_exists.mp (firstIdx_isSome_of_mem hmem)
    rw [lookupCell_of_firstIdx hi, mapAtCol_getElem]
    have hci : df.cols[i]? = some c := firstIdx_getElem hi
    rw [if_pos hci]
    have hilt : i < df.cols.length := (List.getElem?_eq_some_iff.mp hci).1
    have hlen : row.length = df.cols.length := alignedB_mem h hrow
    rw [List.getElem?_eq_getElem (by omega)]
    rfl
  · simp only [setCol, if_neg hc, List.mem_map] at hrow2
    obtain ⟨row, hrow, rfl⟩ := hrow2
    simp only [setCol, if_neg hc]
    have hnm : c ∉ df.cols := by simpa using hc
    rw [lookupCell_of_firstIdx (firstIdx_append_singleton_self hnm)]
    have hlen : row.length = df.cols.length := alignedB_mem h hrow
    rw [← hlen]
    exact List.getElem?_concat_length row v

theorem setCol_lookup_other {df : DataFrame} (c : UStr) (v : Val)
    (h : df.alignedB = true) :
    ∀ row2 ∈ (setCol df c v).rows, ∃ row ∈ df.rows,
      ∀ c', c' ≠ c → lookupCell (setCol df c v).cols row2 c' = lookupCell df.cols row c' := by
  intro row2 hrow2
  by_cases hc : df.cols.contains c
  · simp only [setCol, if_pos hc, List.mem_map] at hrow2
    obtain ⟨row, hrow, rfl⟩ := hrow2
    refine ⟨row, hrow, fun c' hne => ?_⟩
    simp only [setCol, if_pos hc]
    cases hfi : firstIdx c' df.cols with
    | none => unfold lookupCell; rw [hfi]
    | some i =>
      rw [lookupCell_of_firstIdx hfi, lookupCell_of_firstIdx hfi, mapAtCol_getElem]
      rw [firstIdx_getElem hfi]
      rw [if_neg (by simp [hne])]
  · simp only [setCol, if_neg hc, List.mem_map] at hrow2
    obtain ⟨row, hrow, rfl⟩ := hrow2
    refine ⟨row, hrow, fun c' hne => ?_⟩
    simp only [setCol, if_neg hc]
    cases hfi : firstIdx c' df.cols with
    | none =>
      have hnm : c' ∉ df.cols := by
        intro hm
        have := firstIdx_isSome_of_mem hm
        rw [hfi] at this
        simp at this
      have h2 : firstIdx c' (df.cols ++ [c]) = none := by
        apply firstIdx_none_of_not_mem
        intro hm
        rcases List.mem_append.mp hm with h3 | h3
        · exact hnm h3
        · simp only [List.mem_singleton] at h3
          exact hne h3
      unfold lookupCell
      rw [hfi, h2]
    | some i =>
      rw [lookupCell_of_firstIdx (firstIdx_append_some hfi [c]),
        lookupCell_of_firstIdx hfi]
      have hci : df.cols[i]? = some c' := firstIdx_getElem hfi
      have hilt : i < df.cols.length := (List.getElem?_eq_some_iff.mp hci).1
      have hlen : row.length = df.cols.length := alignedB_mem h hrow
      exact List.getElem?_append_left (by omega)

theorem coerceCol_lookup_other {df : DataFrame} (c : UStr) (f : Val → Val) :
    ∀ row2 ∈ (coerceCol df c f).rows, ∃ row ∈ df.rows,
      ∀ c', c' ≠ c → lookupCell (coerceCol df c f).cols row2 c' = lookupCell df.cols row c' := by
  intro row2 hrow2
  simp only [coerceCol, List.mem_map] at hrow2
  obtain ⟨row, hrow, rfl⟩ := hrow2
  refine ⟨row, hrow, fun c' hne => ?_⟩
  show lookupCell df.cols _ c' = _
  cases hfi : firstIdx c' df.cols with
  | none => unfold lookupCell; rw [hfi]
  | some i =>
    rw [lookupCell_of_firstIdx hfi, lookupCell_of_firstIdx hfi, mapAtCol_getElem]
    rw [firstIdx_getElem hfi]
    rw [if_neg (by simp [hne])]

theorem mem_dedupInsert {x c : UStr} {acc : List UStr} :
    x ∈ dedupInsert acc c ↔ x ∈ acc ∨ x = c := by
  unfold dedupInsert
  split_ifs with h
  · constructor
    · exact fun hx => Or.inl hx
    · rintro (hx | rfl)
      · exact hx
      · simpa using h
  · simp

theorem mem_foldl_dedupInsert {x : UStr} : ∀ {l acc : List UStr},
    x ∈ l.foldl dedupInsert acc ↔ x ∈ acc ∨ x ∈ l := by
  intro l
  induction l with
  | nil => intro acc; simp
  | cons a as ih =>
    intro acc
    simp only [List.foldl_cons]
    rw [ih, mem_dedupInsert]
    constructor
    · rintro ((hx | rfl) | hx)
      · exact Or.inl hx
      · right; simp
      · right; simp [hx]
    · rintro (hx | hx)
      · exact Or.inl (Or.inl hx)
      · rcases List.mem_cons.mp hx with rfl | hx2
        · exact Or.inl (Or.inr rfl)
        · exact Or.inr hx2

theorem mem_unionCols {x : UStr} : ∀ {ls : List (List UStr)},
    x ∈ unionCols ls ↔ ∃ l ∈ ls, x ∈ l := by
  suffices hgen : ∀ (ls : List (List UStr)) (acc : List UStr),
      x ∈ ls.foldl (fun acc l => l.foldl dedupInsert acc) acc ↔
        x ∈ acc ∨ ∃ l ∈ ls, x ∈ l by
    intro ls
    rw [unionCols, hgen]
    simp
  intro ls
  induction ls with
  | nil => intro acc; simp
  | cons a as ih =>
    intro acc
    simp only [List.foldl_cons]
    rw [ih, mem_foldl_dedupInsert]
    constructor
    · rintro ((hx | hx) | ⟨l, hl, hx⟩)
      · exact Or.inl hx
      · exact Or.inr ⟨a, by simp, hx⟩
      · exact Or.inr ⟨l, by simp [hl], hx⟩
    · rintro (hx | ⟨l, hl, hx⟩)
      · exact Or.inl (Or.inl hx)
      · rcases List.mem_cons.mp hl with rfl | hl2
        · exact Or.inl (Or.inr hx)
        · exact Or.inr ⟨l, hl2, hx⟩

theorem lookupCell_reindex {src : List UStr} {row : List Val} {allCols : List UStr}
    {c : UStr} (hc : c ∈ allCols) :
    lookupCell allCols (reindexRow src row allCols) c =
      some ((lookupCell src row c).getD Val.na) := by
  obtain ⟨i, hi⟩ := Option.isSome_iff_exists.mp (firstIdx_isSome_of_mem hc)
  rw [lookupCell_of_firstIdx hi]
  unfold reindexRow
  rw [List.getElem?_map, firstIdx_getElem hi]
  rfl

theorem concatFrames_rows {dfs : List DataFrame} :
    ∀ row2 ∈ (concatFrames dfs).rows, ∃ df ∈ dfs, ∃ row ∈ df.rows,
      ∀ c v, lookupCell df.cols row c = some v →
        lookupCell (concatFrames dfs).cols row2 c = some v := by
  intro row2 hrow2
  simp only [concatFrames, List.mem_flatten, List.mem_map] at hrow2
  obtain ⟨chunk, ⟨df, hdf, rfl⟩, hrow2⟩ := hrow2
  simp only [List.mem_map] at hrow2
  obtain ⟨row, hrow, rfl⟩ := hrow2
  refine ⟨df, hdf, row, hrow, fun c v hcv => ?_⟩
  have hcm : c ∈ df.cols := by
    cases hfi : firstIdx c df.cols with
    | none =>
      unfold lookupCell at hcv
      rw [hfi] at hcv
      simp at hcv
    | some i => exact List.getElem?_mem (firstIdx_getElem hfi)
  have hcall : c ∈ unionCols (dfs.map DataFrame.cols) :=
    mem_unionCols.mpr ⟨df.cols, List.mem_map_of_mem _ hdf, hcm⟩
  rw [show (concatFrames dfs).cols = unionCols (dfs.map DataFrame.cols) from rfl]
  rw [lookupCell_reindex hcall, hcv]
  rfl

theorem lookupA_mem {α : Type} : ∀ {l : List (UStr × α)} {key : UStr} {v : α},
    lookupA l key = some v → (key, v) ∈ l := by
  intro l
  induction l with
  | nil => intro key v h; simp [lookupA] at h
  | cons kv rest ih =>
    intro key v h
    obtain ⟨k, u⟩ := kv
    unfold lookupA at h
    by_cases hk : key = k
    · rw [if_pos hk] at h
      cases h
      simp [hk]
    · rw [if_neg hk] at h
      exact List.mem_cons_of_mem _ (ih h)

theorem wfB_csv {fs : FS} (h : fs.wfB = true) {p : UStr} {df : DataFrame}
    (hr : readCsv fs p = some df) : df.alignedB = true := by
  unfold FS.wfB at h
  rw [Bool.and_eq_true] at h
  have h1 := h.1
  unfold readCsv at hr
  cases hl : lookupA fs.csvFiles p with
  | none => rw [hl] at hr; simp at hr
  | some r =>
    rw [hl] at hr
    have hmem := lookupA_mem hl
    rw [show r = some df from hr] at hmem
    have := List.all_eq_true.mp h1 (p, some df) hmem
    simpa using this

theorem wfB_sheet {fs : FS} (h : fs.wfB = true) {p : UStr}
    {sheets : List (UStr × Option DataFrame)} {n : UStr} {df : DataFrame}
    (hr : readXlsx fs p = some sheets) (hm : (n, some df) ∈ sheets) :
    df.alignedB = true := by
  unfold FS.wfB at h
  rw [Bool.and_eq_true] at h
  have h2 := h.2
  unfold readXlsx at hr
  cases hl : lookupA fs.xlsxFiles p with
  | none => rw [hl] at hr; simp at hr
  | some r =>
    rw [hl] at hr
    have hmem := lookupA_mem hl
    rw [show r = some sheets from hr] at hmem
    have hall := List.all_eq_true.mp h2 (p, some sheets) hmem
    have hall2 : sheets.all (fun sd =>
        match sd.2 with
        | some df => df.alignedB
        | none => true) = true := hall
    exact List.all_eq_true.mp hall2 (n, some df) hm

theorem envPhase_fst (fs : FS) :
    (envPhase fs).1 = if (envDfs fs).isEmpty then emptyDF else concatFrames (envDfs fs) := rfl

theorem envStep_some_tagged {fs : FS} (hwf : fs.wfB = true) (s : School)
    {df : DataFrame} (h : (envStep fs s).1 = some df) :
    df.alignedB = true ∧
    ∀ row ∈ df.rows,
      lookupCell df.cols row colSchool = some (Val.str s.name) ∧
      lookupCell df.cols row colTargetEc = some (Val.num s.ec) := by
  cases hfind : find_file_fuzzy fs.listing s.name extCsv with
  | none => simp only [envStep, hfind] at h; simp at h
  | some p =>
    simp only [envStep, hfind] at h
    cases hread : readCsv fs p with
    | none => simp only [hread] at h; simp at h
    | some df0 =>
      simp only [hread] at h
      by_cases hreq : required_cols.all (fun c => (normEnvCols df0).cols.contains c) = true
      · rw [if_pos hreq] at h
        simp only [Option.some_inj] at h
        have a1 : (normEnvCols df0).alignedB = true :=
          normEnvCols_alignedB (wfB_csv hwf hread)
        have a2 := setCol_alignedB colSchool (Val.str s.name) a1
        have a3 := setCol_alignedB colTargetEc (Val.num s.ec) a2
        have a4 := coerceCol_alignedB colTime toDatetimeVal a3
        rw [← h]
        refine ⟨a4, fun row4 hrow4 => ?_⟩
        obtain ⟨row3, hrow3, hp4⟩ :=
          coerceCol_lookup_other colTime toDatetimeVal row4 hrow4
        obtain ⟨row2, hrow2, hp3⟩ :=
          setCol_lookup_other colTargetEc (Val.num s.ec) a2 row3 hrow3
        have hsch2 := setCol_lookup_self colSchool (Val.str s.name) a1 row2 hrow2
        have htgt3 := setCol_lookup_self colTargetEc (Val.num s.ec) a2 row3 hrow3
        constructor
        · rw [hp4 colSchool (by decide), hp3 colSchool (by decide)]
          exact hsch2
        · rw [hp4 colTargetEc (by decide)]
          exact htgt3
      · rw [if_neg hreq] at h
        simp at h

theorem loopMatch_mem : ∀ {n : UStr} {l : List School} {s : School},
    loopMatch n l = some s → s ∈ l := by
  intro n l
  induction l with
  | nil => intro s h; simp [loopMatch] at h
  | cons a as ih =>
    intro s h
    unfold loopMatch at h
    by_cases hc : containsSub n a.name = true
    · rw [if_pos hc] at h
      cases h
      simp
    · rw [if_neg hc] at h
      exact List.mem_cons_of_mem _ (ih h)

theorem processSheets_mem :
    ∀ {sheets : List (UStr × Option DataFrame)} {dfs : List DataFrame},
    processSheets sheets = some dfs → ∀ df ∈ dfs,
      ∃ s ∈ SCHOOL_CONFIG, ∃ (n : UStr) (df0 : DataFrame),
        (n, some df0) ∈ sheets ∧ df = tagGrowth s df0 := by
  intro sheets
  induction sheets with
  | nil =>
    intro dfs h df hdf
    simp only [processSheets, Option.some_inj] at h
    rw [← h] at hdf
    simp at hdf
  | cons nd rest ih =>
    intro dfs h df hdf
    obtain ⟨n, d⟩ := nd
    unfold processSheets at h
    cases hm : loopMatch (normalize_str n) SCHOOL_CONFIG with
    | none =>
      rw [hm] at h
      obtain ⟨s, hs, n2, df02, hmem, heq⟩ := ih h df hdf
      exact ⟨s, hs, n2, df02, List.mem_cons_of_mem _ hmem, heq⟩
    | some s =>
      rw [hm] at h
      cases d with
      | none => simp at h
      | some df0 =>
        cases hrest : processSheets rest with
        | none => rw [hrest] at h; simp at h
        | some dfs0 =>
          rw [hrest] at h
          simp only [Option.map, Option.some_inj] at h
          rw [← h] at hdf
          rcases List.mem_cons.mp hdf with rfl | hdf2
          · exact ⟨s, loopMatch_mem hm, n, df0, by simp, rfl⟩
          · obtain ⟨s2, hs2, n2, df02, hmem, heq⟩ := ih hrest df hdf2
            exact ⟨s2, hs2, n2, df02, List.mem_cons_of_mem _ hmem, heq⟩

theorem tagGrowth_tagged {df0 : DataFrame} (s : School) (h : df0.alignedB = true) :
    ∀ row ∈ (tagGrowth s df0).rows,
      lookupCell (tagGrowth s df0).cols row colSchool = some (Val.str s.name) ∧
      lookupCell (tagGrowth s df0).cols row colTargetEc = some (Val.num s.ec) := by
  intro row hrow
  have a1 : (normGrowthCols df0).alignedB = true := normGrowthCols_alignedB h
  have a2 := setCol_alignedB colSchool (Val.str s.name) a1
  unfold tagGrowth at hrow ⊢
  obtain ⟨row2, hrow2, hp⟩ :=
    setCol_lookup_other colTargetEc (Val.num s.ec) a2 row hrow
  have hsch := setCol_lookup_self colSchool (Val.str s.name) a1 row2 hrow2
  have htgt := setCol_lookup_self colTargetEc (Val.num s.ec) a2 row hrow
  constructor
  · rw [hp colSchool (by decide)]
    exact hsch
  · exact htgt

theorem growthPhase_rows_tagged {fs : FS} (hwf : fs.wfB = true) :
    ∀ row ∈ (growthPhase fs).1.rows, ∃ s ∈ SCHOOL_CONFIG,
      lookupCell (growthPhase fs).1.cols row colSchool = some (Val.str s.name) ∧
      lookupCell (growthPhase fs).1.cols row colTargetEc = some (Val.num s.ec) := by
  intro row hrow
  cases hfind : (find_file_fuzzy fs.listing kwGrowth1 extXlsx).orElse
      (fun _ => find_file_fuzzy fs.listing kwGrowth2 extXlsx) with
  | none =>
    simp only [growthPhase, hfind] at hrow
    simp [emptyDF] at hrow
  | some p =>
    simp only [growthPhase, hfind] at hrow ⊢
    cases hread : readXlsx fs p with
    | none =>
      simp only [hread] at hrow
      simp [emptyDF] at hrow
    | some sheets =>
      simp only [hread] at hrow ⊢
      cases hps : processSheets sheets with
      | none =>
        simp only [hps] at hrow
        simp [emptyDF] at hrow
      | some dfs =>
        simp only [hps] at hrow ⊢
        by_cases he : dfs.isEmpty
        · rw [if_pos he] at hrow
          simp [emptyDF] at hrow
        · rw [if_neg he] at hrow ⊢
          obtain ⟨df, hdf, row0, hrow0, htrans⟩ := concatFrames_rows row hrow
          obtain ⟨s, hs, n, df0, hmem, rfl⟩ := processSheets_mem hps df hdf
          have ha : df0.alignedB = true := wfB_sheet hwf hread hmem
          obtain ⟨h1, h2⟩ := tagGrowth_tagged s ha row0 hrow0
          exact ⟨s, hs, htrans _ _ h1, htrans _ _ h2⟩

theorem envPhase_rows_tagged {fs : FS} (hwf : fs.wfB = true) :
    ∀ row ∈ (envPhase fs).1.rows, ∃ s ∈ SCHOOL_CONFIG,
      lookupCell (envPhase fs).1.cols row colSchool = some (Val.str s.name) ∧
      lookupCell (envPhase fs).1.cols row colTargetEc = some (Val.num s.ec) := by
  intro row hrow
  rw [envPhase_fst] at hrow ⊢
  by_cases he : (envDfs fs).isEmpty
  · rw [if_pos he] at hrow
    simp [emptyDF] at hrow
  · rw [if_neg he] at hrow ⊢
    obtain ⟨df, hdf, row0, hrow0, htrans⟩ := concatFrames_rows row hrow
    unfold envDfs at hdf
    simp only [List.mem_filterMap, List.mem_map] at hdf
    obtain ⟨t, ⟨s, hs, rfl⟩, ht⟩ := hdf
    obtain ⟨ha, htag⟩ := envStep_some_tagged hwf s ht
    obtain ⟨h1, h2⟩ := htag row0 hrow0
    exact ⟨s, hs, htrans _ _ h1, htrans _ _ h2⟩

theorem containsSub_nil (sub : UStr) : containsSub [] sub = leadsWith sub [] := by
  unfold containsSub
  exact Bool.or_false _

theorem containsSub_cons (a : Nat) (t sub : UStr) :
    containsSub (a :: t) sub = (leadsWith sub (a :: t) || containsSub t sub) := rfl

theorem containsSub_of_leadsWith {s sub : UStr} (h : leadsWith sub s = true) :
    containsSub s sub = true := by
  cases s with
  | nil => rw [containsSub_nil]; exact h
  | cons a t => rw [containsSub_cons, h, Bool.true_or]

theorem leadsWith_append_self (p b : UStr) : leadsWith p (p ++ b) = true := by
  induction p with
  | nil => rfl
  | cons a as ih => simp [leadsWith, ih]

theorem containsSub_self_append (p b : UStr) : containsSub (p ++ b) p = true :=
  containsSub_of_leadsWith (leadsWith_append_self p b)

theorem containsSub_append_left (x y sub : UStr) (h : containsSub y sub = true) :
    containsSub (x ++ y) sub = true := by
  induction x with
  | nil => simpa using h
  | cons a as ih =>
    rw [List.cons_append, containsSub_cons, ih, Bool.or_true]

/-- Counterexample to C1: with no per-group table loaded, the Reconciler
returns `pd.DataFrame()`, whose column set is empty — not the canonical
schema's column set; in particular the group-identity column `school` is
absent, so grouping it by `school` would in fact fail (the code instead
guards every grouping behind a non-emptiness check). -/
theorem reconciler_empty_not_canonical_schema :
    load_data fsNoFiles = some ⟨emptyDF, emptyDF, [growthFindWarnMsg], []⟩ ∧
    emptyDF.cols = [] ∧
    colSchool ∈ canonicalEnvColumns ∧
    colSchool ∉ emptyDF.cols := by
  refine ⟨by decide, by decide, by decide, by decide⟩

/-- C1 (amended): for an empty sequence of per-group tables (no
environmental file contributed for any group, and no growth sheet matched),
each unified dataset is the explicitly-empty table with zero rows and an
*empty* column set — not the canonical schema's column set. -/
theorem reconciler_empty_input_explicit_empty (fs : FS) (p : UStr)
    (sheets : List (UStr × Option DataFrame))
    (henv : ∀ s ∈ SCHOOL_CONFIG, (envStep fs s).1 = none)
    (hfind : (find_file_fuzzy fs.listing kwGrowth1 extXlsx).orElse
        (fun _ => find_file_fuzzy fs.listing kwGrowth2 extXlsx) = some p)
    (hread : readXlsx fs p = some sheets)
    (hmatch : processSheets sheets = some []) :
    (envPhase fs).1 = emptyDF ∧ (growthPhase fs).1 = emptyDF ∧
    emptyDF.cols = [] ∧ emptyDF.rows = [] := by
  refine ⟨?_, ?_, rfl, rfl⟩
  · rw [envPhase_fst]
    have hnil : envDfs fs = [] := by
      unfold envDfs
      rw [List.filterMap_eq_nil_iff]
      intro t ht
      simp only [List.mem_map] at ht
      obtain ⟨s, hs, rfl⟩ := ht
      exact henv s hs
    rw [hnil]
    rfl
  · simp only [growthPhase, hfind, hread, hmatch]
    rfl

/-- Witness for the amended C1 at a concrete input: an existing but
env-file-less directory whose growth workbook has one unmatched sheet. -/
theorem reconciler_empty_input_explicit_empty_witness :
    (envPhase fsUnmatchedSheet).1 = emptyDF ∧
    (growthPhase fsUnmatchedSheet).1 = emptyDF ∧
    emptyDF.cols = [] ∧ emptyDF.rows = [] :=
  reconciler_empty_input_explicit_empty fsUnmatchedSheet
    [0xC0DD, 0xC721, 0xACB0, 0xACFC, 0x2E, 0x78, 0x6C, 0x73, 0x78]
    [([0x61], some ⟨[colId], [[Val.num 1]]⟩)]
    (by decide) (by decide) (by decide) (by decide)

/-- Counterexample to C4: when 송도고's file lacks the required `humidity`
column, the file is rejected with a warning, but the warning names only the
file — the emitted message does not contain the name of the missing field
(`humidity`), contrary to the claim that the warning names the missing
fields. -/
theorem env_warning_does_not_name_missing_fields :
    envStep fsMissingHumidity schoolSongdo =
      (none, [envWarnMsg nameSongdoCsv], []) ∧
    colHumidity ∉ (normEnvCols dfNoHumidity).cols ∧
    containsSub (envWarnMsg nameSongdoCsv) colHumidity = false := by
  refine ⟨by decide, by decide, by decide⟩

/-- C4 (amended): a located and parsed environmental source contributes rows
if and only if all five required fields are present post-normalization; when
any is absent the file contributes nothing and a non-fatal warning naming
the offending *file* (not the individual missing fields) is emitted. -/
theorem env_required_fields_gate (fs : FS) (s : School) (p : UStr)
    (df : DataFrame)
    (hfind : find_file_fuzzy fs.listing s.name extCsv = some p)
    (hread : readCsv fs p = some df) :
    ((envStep fs s).1.isSome = true ↔
      required_cols.all (fun c => (normEnvCols df).cols.contains c) = true) ∧
    (required_cols.all (fun c => (normEnvCols df).cols.contains c) = false →
      envStep fs s = (none, [envWarnMsg p], []) ∧
      containsSub (envWarnMsg p) p = true) := by
  constructor
  · simp only [envStep, hfind, hread]
    by_cases hreq : required_cols.all (fun c => (normEnvCols df).cols.contains c) = true
    · rw [if_pos hreq]
      exact ⟨fun _ => hreq, fun _ => rfl⟩
    · rw [if_neg hreq]
      constructor
      · intro hX; simp at hX
      · intro hX; exact absurd hX hreq
  · intro hreq
    refine ⟨?_, ?_⟩
    · simp only [envStep, hfind, hread]
      rw [if_neg (by rw [hreq]; simp)]
    · unfold envWarnMsg
      rw [List.append_assoc]
      exact containsSub_append_left _ _ _ (containsSub_self_append p _)

/-- Witness for the amended C4 at the concrete missing-`humidity` input. -/
theorem env_required_fields_gate_witness :
    ((envStep fsMissingHumidity schoolSongdo).1.isSome = true ↔
      required_cols.all (fun c => (normEnvCols dfNoHumidity).cols.contains c) = true) ∧
    (required_cols.all (fun c => (normEnvCols dfNoHumidity).cols.contains c) = false →
      envStep fsMissingHumidity schoolSongdo = (none, [envWarnMsg nameSongdoCsv], []) ∧
      containsSub (envWarnMsg nameSongdoCsv) nameSongdoCsv = true) :=
  env_required_fields_gate fsMissingHumidity schoolSongdo nameSongdoCsv dfNoHumidity
    (by decide) (by decide)

theorem loopMatch_eq_find? (n : UStr) : ∀ (l : List School),
    loopMatch n l = l.find? (fun s => containsSub n s.name)
  | [] => rfl
  | s :: rest => by
    simp only [loopMatch, List.find?]
    cases hc : containsSub n s.name
    · simp [hc, loopMatch_eq_find? n rest]
    · simp [hc]

theorem processSheets_cons (n : UStr) (d : Option DataFrame)
    (rest : List (UStr × Option DataFrame)) :
    processSheets ((n, d) :: rest) =
      match loopMatch (normalize_str n) SCHOOL_CONFIG with
      | none => processSheets rest
      | some s =>
        match d with
        | none => none
        | some df => (processSheets rest).map (fun dfs => tagGrowth s df :: dfs) := rfl

/-- C6: a growth sheet is attributed to the *first* configured Group whose
name occurs in the sheet's Unicode-canonicalized name (so a sheet embedding
a Group name in extra text still matches), and a sheet containing no Group's
name is skipped silently, contributing nothing to the traversal. -/
theorem growth_sheet_attribution :
    (∀ n, loopMatch n SCHOOL_CONFIG =
      SCHOOL_CONFIG.find? (fun s => containsSub n s.name)) ∧
    (∀ (pre post : List (UStr × Option DataFrame)) (n : UStr) (d : Option DataFrame),
      loopMatch (normalize_str n) SCHOOL_CONFIG = none →
      processSheets (pre ++ (n, d) :: post) = processSheets (pre ++ post)) ∧
    (∀ (n : UStr) (df : DataFrame) (s : School),
      loopMatch (normalize_str n) SCHOOL_CONFIG = some s →
      processSheets [(n, some df)] = some [tagGrowth s df]) := by
  refine ⟨fun n => loopMatch_eq_find? n SCHOOL_CONFIG, ?_, ?_⟩
  · intro pre post n d h
    induction pre with
    | nil =>
      simp only [List.nil_append]
      rw [processSheets_cons, h]
    | cons nd0 rest ih =>
      obtain ⟨n0, d0⟩ := nd0
      simp only [List.cons_append]
      rw [processSheets_cons, processSheets_cons]
      cases hm0 : loopMatch (normalize_str n0) SCHOOL_CONFIG with
      | none => exact ih
      | some s0 =>
        cases d0 with
        | none => rfl
        | some df0 => rw [ih]
  · intro n df s h
    rw [processSheets_cons, h]
    rfl

/-- Witness for C6: the sheet name 송도고1 (a Group name plus a numeric
suffix) is attributed to 송도고; a sheet named `a` matches no Group and is
dropped from the traversal. -/
theorem growth_sheet_attribution_witness :
    loopMatch [0xC1A1, 0xB3C4, 0xACE0, 0x31] SCHOOL_CONFIG =
      SCHOOL_CONFIG.find?
        (fun s => containsSub [0xC1A1, 0xB3C4, 0xACE0, 0x31] s.name) ∧
    processSheets [([0x61], none)] = processSheets [] ∧
    processSheets [([0xC1A1, 0xB3C4, 0xACE0, 0x31], some emptyDF)] =
      some [tagGrowth schoolSongdo emptyDF] :=
  ⟨growth_sheet_attribution.1 [0xC1A1, 0xB3C4, 0xACE0, 0x31],
   by
     have h := growth_sheet_attribution.2.1 [] [] [0x61] none (by decide)
     simpa using h,
   growth_sheet_attribution.2.2 [0xC1A1, 0xB3C4, 0xACE0, 0x31] emptyDF
     schoolSongdo (by decide)⟩

/-- C7: every row of both unified datasets carries a `school` tag naming a
configured Group and a `target_ec` value equal to that Group's configured
target parameter, whatever source file or sheet the row came from (assuming
the parsed source tables are rectangular, as pandas guarantees). -/
theorem unified_rows_tagged (fs : FS) (r : LoadResult)
    (hwf : fs.wfB = true) (h : load_data fs = some r) :
    (∀ row ∈ r.env.rows, ∃ s ∈ SCHOOL_CONFIG,
      lookupCell r.env.cols row colSchool = some (Val.str s.name) ∧
      lookupCell r.env.cols row colTargetEc = some (Val.num s.ec)) ∧
    (∀ row ∈ r.growth.rows, ∃ s ∈ SCHOOL_CONFIG,
      lookupCell r.growth.cols row colSchool = some (Val.str s.name) ∧
      lookupCell r.growth.cols row colTargetEc = some (Val.num s.ec)) := by
  cases hl : fs.listing with
  | none =>
    simp only [load_data, hl] at h
    exact Option.noConfusion h
  | some l =>
    simp only [load_data, hl, Option.some_inj] at h
    subst h
    exact ⟨fun row hrow => envPhase_rows_tagged hwf row hrow,
           fun row hrow => growthPhase_rows_tagged hwf row hrow⟩

/-- Witness for C7 at a concrete loaded dataset. -/
theorem unified_rows_tagged_witness :
    (∀ row ∈ ((load_data fsTagged).getD ⟨emptyDF, emptyDF, [], []⟩).env.rows,
      ∃ s ∈ SCHOOL_CONFIG,
      lookupCell ((load_data fsTagged).getD ⟨emptyDF, emptyDF, [], []⟩).env.cols
          row colSchool = some (Val.str s.name) ∧
      lookupCell ((load_data fsTagged).getD ⟨emptyDF, emptyDF, [], []⟩).env.cols
          row colTargetEc = some (Val.num s.ec)) ∧
    (∀ row ∈ ((load_data fsTagged).getD ⟨emptyDF, emptyDF, [], []⟩).growth.rows,
      ∃ s ∈ SCHOOL_CONFIG,
      lookupCell ((load_data fsTagged).getD ⟨emptyDF, emptyDF, [], []⟩).growth.cols
          row colSchool = some (Val.str s.name) ∧
      lookupCell ((load_data fsTagged).getD ⟨emptyDF, emptyDF, [], []⟩).growth.cols
          row colTargetEc = some (Val.num s.ec)) :=
  unified_rows_tagged fsTagged ((load_data fsTagged).getD ⟨emptyDF, emptyDF, [], []⟩)
    (by decide) (by decide)

/-- Counterexample to C8: a failure while processing the second (matched)
sheet does not merely skip that sheet — it is caught at the workbook level
and wipes the whole growth dataset, losing the first sheet's contribution:
with the failing sheet present the growth dataset is empty, while without it
the first sheet contributes its row. -/
theorem per_sheet_failure_wipes_workbook :
    (growthPhase fsSheetError).1 = emptyDF ∧
    (growthPhase fsSheetError).2.2 = [growthErrMsg] ∧
    (growthPhase fsSheetOk).1.rows.length = 1 := by
  refine ⟨by decide, by decide, by decide⟩

/-- C8 (amended): no failure escapes the loader, but the isolation granularity
differs between the two halves: an environmental file that fails to parse is
skipped with an error message affecting only that group's contribution,
while a raise on any matched growth sheet aborts the whole per-sheet
traversal, and the handler then leaves the growth dataset empty with an
error message — the other sheets' contributions are not preserved. -/
theorem loader_failure_handling :
    (∀ (fs : FS) (s : School) (p : UStr),
      find_file_fuzzy fs.listing s.name extCsv = some p →
      readCsv fs p = none →
      envStep fs s = (none, [], [envErrMsg p])) ∧
    (∀ (pre post : List (UStr × Option DataFrame)) (n : UStr),
      (loopMatch (normalize_str n) SCHOOL_CONFIG).isSome = true →
      processSheets (pre ++ (n, none) :: post) = none) ∧
    (∀ (fs : FS) (q : UStr) (sheets : List (UStr × Option DataFrame)),
      (find_file_fuzzy fs.listing kwGrowth1 extXlsx).orElse
        (fun _ => find_file_fuzzy fs.listing kwGrowth2 extXlsx) = some q →
      readXlsx fs q = some sheets → processSheets sheets = none →
      growthPhase fs = (emptyDF, [], [growthErrMsg])) := by
  refine ⟨?_, ?_, ?_⟩
  · intro fs s p hfind hread
    simp only [envStep, hfind, hread]
  · intro pre post n hm
    obtain ⟨s0, hs0⟩ := Option.isSome_iff_exists.mp hm
    induction pre with
    | nil =>
      simp only [List.nil_append]
      rw [processSheets_cons, hs0]
    | cons nd0 rest ih =>
      obtain ⟨n0, d0⟩ := nd0
      simp only [List.cons_append]
      rw [processSheets_cons]
      cases hm0 : loopMatch (normalize_str n0) SCHOOL_CONFIG with
      | none => exact ih
      | some s1 =>
        cases d0 with
        | none => rfl
        | some df0 => rw [ih]; rfl
  · intro fs q sheets hq hrd hps
    simp only [growthPhase, hq, hrd, hps]

/-- Witness for the amended C8 at concrete inputs: a CSV that fails to parse
for 송도고, and the two-sheet workbook whose matched second sheet raises. -/
theorem loader_failure_handling_witness :
    envStep ⟨some [nameSongdoCsv], [(nameSongdoCsv, none)], []⟩ schoolSongdo =
      (none, [], [envErrMsg nameSongdoCsv]) ∧
    processSheets [([0xC1A1, 0xB3C4, 0xACE0], some dfOneGrowthRow),
      ([0xD558, 0xB298, 0xACE0], none)] = none ∧
    growthPhase fsSheetError = (emptyDF, [], [growthErrMsg]) := by
  refine ⟨loader_failure_handling.1 ⟨some [nameSongdoCsv], [(nameSongdoCsv, none)], []⟩
      schoolSongdo nameSongdoCsv (by decide) (by decide), ?_, ?_⟩
  · have h := loader_failure_handling.2.1
      [([0xC1A1, 0xB3C4, 0xACE0], some dfOneGrowthRow)] []
      [0xD558, 0xB298, 0xACE0] (by decide)
    simpa using h
  · exact loader_failure_handling.2.2 fsSheetError nameGrowthXlsx
      [([0xC1A1, 0xB3C4, 0xACE0], some dfOneGrowthRow),
       ([0xD558, 0xB298, 0xACE0], none)]
      (by decide) (by decide) (by decide)

/-- C9: the only hard-stop conditions are a missing data directory and both
unified datasets being empty; given a completed load, failure is reported
exactly when both datasets are empty (so success whenever at least one is
non-empty).  The environmental dataset is computed independently of the
workbook contents, and when neither candidate keyword locates a workbook the
growth dataset is empty with a non-fatal warning. -/
theorem hard_stop_conditions (fs : FS) :
    (fs.listing = none → loadFails fs = true) ∧
    (∀ r, load_data fs = some r →
      (loadFails fs = true ↔ (r.env.pdEmpty = true ∧ r.growth.pdEmpty = true))) ∧
    (∀ xl, envPhase ⟨fs.listing, fs.csvFiles, xl⟩ = envPhase fs) ∧
    (find_file_fuzzy fs.listing kwGrowth1 extXlsx = none →
      find_file_fuzzy fs.listing kwGrowth2 extXlsx = none →
      growthPhase fs = (emptyDF, [growthFindWarnMsg], [])) := by
  refine ⟨?_, ?_, ?_, ?_⟩
  · intro h
    unfold loadFails load_data
    rw [h]
  · intro r h
    unfold loadFails
    rw [h, Bool.and_eq_true]
  · intro xl
    rfl
  · intro h1 h2
    have horelse : (find_file_fuzzy fs.listing kwGrowth1 extXlsx).orElse
        (fun _ => find_file_fuzzy fs.listing kwGrowth2 extXlsx) = none := by
      rw [h1, h2]
      rfl
    simp only [growthPhase, horelse]

/-- Witness for C9: with environmental data present and no workbook under
either keyword, the growth dataset is empty with a warning, yet the load
reports success. -/
theorem hard_stop_conditions_witness :
    growthPhase fsEnvOnly = (emptyDF, [growthFindWarnMsg], []) ∧
    (loadFails fsEnvOnly = true ↔
      (((load_data fsEnvOnly).getD ⟨emptyDF, emptyDF, [], []⟩).env.pdEmpty = true ∧
       ((load_data fsEnvOnly).getD ⟨emptyDF, emptyDF, [], []⟩).growth.pdEmpty = true)) ∧
    loadFails fsEnvOnly = false :=
  ⟨(hard_stop_conditions fsEnvOnly).2.2.2 (by decide) (by decide),
   (hard_stop_conditions fsEnvOnly).2.1
     ((load_data fsEnvOnly).getD ⟨emptyDF, emptyDF, [], []⟩) (by decide),
   by decide⟩
